import Mathlib

/-!
Verification of the VengeanceUI MCP server's metadata extraction and
retrieval engine (src/server.ts together with its component loader and
type definitions).  The definitions below are a shallow embedding of the
TypeScript source: pure helpers become Lean functions, the module-level
cache becomes explicit state passing, JavaScript regular expressions are
modelled by specialised executable matchers over character lists, and
network calls are abstracted as an explicit fetch function returning
`Except`.
-/

/-! ## String utilities

JavaScript `String.prototype.includes` is substring containment.  We model
strings as their character lists and test containment directly. -/

/-- Tests whether `p` is a prefix of `t`, character by character
(model of the start of a JavaScript substring test). -/
def charsPrefix : List Char → List Char → Bool
  | [], _ => true
  | _ :: _, [] => false
  | p :: ps, t :: ts => p == t && charsPrefix ps ts

/-- Tests whether `pat` occurs as a contiguous substring of the text
(model of JavaScript `includes`). -/
def charsContain (pat : List Char) : List Char → Bool
  | [] => charsPrefix pat []
  | t :: ts => charsPrefix pat (t :: ts) || charsContain pat ts

/-- Model of JavaScript `s.includes(pat)`. -/
def strContainsStr (s pat : String) : Bool :=
  charsContain pat.toList s.toList

/-- Model of JavaScript `s.startsWith(pat)`. -/
def strStarts (s pat : String) : Bool :=
  charsPrefix pat.toList s.toList

/-- Model of JavaScript `toLowerCase` (ASCII case folding, applied
character by character). -/
def strToLower (s : String) : String :=
  String.mk (s.toList.map Char.toLower)

/-- The whitespace class used by JavaScript `trim` and by the regex
class `\s` (restricted to the ASCII whitespace actually occurring in
source files). -/
def isWsChar (c : Char) : Bool :=
  c == ' ' || c == '\t' || c == '\n' || c == '\r' ||
  c == Char.ofNat 11 || c == Char.ofNat 12

/-- Model of JavaScript `s.trim()`. -/
def strTrim (s : String) : String :=
  String.mk (((s.toList.dropWhile isWsChar).reverse.dropWhile isWsChar).reverse)

/-! ## Data model (src/types.ts)

`ComponentMetadata` from types.ts, restricted to the fields the verified
operations read (`code`, `dependencies`, `path`, `size`, `demoUrl` are
carried by the loader but not consulted by search/list logic). -/

structure Component where
  name : String
  category : String
  description : String
  tags : List String
  sourceUrl : String
deriving DecidableEq, Inhabited

/-- `ComponentSummary` from types.ts. -/
structure ComponentSummary where
  name : String
  category : String
  description : String
  tags : List String
  sourceUrl : String
deriving DecidableEq, Inhabited

/-- `SearchResult` from types.ts. -/
structure SearchResult where
  component : Component
  score : Nat
  matchedFields : List String
deriving DecidableEq, Inhabited

/-- `formatComponentSummary` from server.ts. -/
def formatComponentSummary (c : Component) : ComponentSummary :=
  { name := c.name, category := c.category, description := c.description,
    tags := c.tags, sourceUrl := c.sourceUrl }

/-! ## Cache manager (server.ts lines 21-50)

The module-level variables `componentsCache` and `lastCacheUpdate` become
an explicit state record; `Date.now()` becomes a `now` parameter; the
network-facing directory fetch of the component loader becomes an
explicit function returning `Except` (an exception in the source). -/

structure CacheState where
  componentsCache : List Component
  lastCacheUpdate : Int
deriving DecidableEq, Inhabited

/-- `CACHE_DURATION` from server.ts: five minutes in milliseconds. -/
def CACHE_DURATION : Int := 5 * 60 * 1000

/-- Model of `loadComponentsFromGitHub` (componentLoader.ts).  The per-path
`fetchComponentsFromDirectory` call is abstracted as `fetchDir`; a thrown
error is `Except.error`.  Each search path is tried under its own
try/catch (errors are logged and skipped); if both paths yield no
components the repository root is fetched inside the outer try/catch,
whose catch returns the empty list. -/
def loadComponentsFromGitHub (fetchDir : String → Except String (List Component)) :
    List Component :=
  let searchPaths : List String := ["registry/new-york", "src/components"]
  let components := searchPaths.foldl (fun acc p =>
    match fetchDir p with
    | Except.ok l => acc ++ l
    | Except.error _ => acc) []
  if components.isEmpty then
    match fetchDir "" with
    | Except.ok l => l
    | Except.error _ => []
  else components

/-- Model of `loadComponents` (server.ts lines 37-50): serve the cache when
`forceRefresh` is false, the cache is non-empty and the last refresh is
younger than `CACHE_DURATION`; otherwise recrawl and overwrite both the
cache and its timestamp. -/
def loadComponents (forceRefresh : Bool) (now : Int)
    (fetchDir : String → Except String (List Component))
    (st : CacheState) : CacheState × List Component :=
  if !forceRefresh && !st.componentsCache.isEmpty &&
      (now - st.lastCacheUpdate < CACHE_DURATION) then
    (st, st.componentsCache)
  else
    let comps := loadComponentsFromGitHub fetchDir
    ({ componentsCache := comps, lastCacheUpdate := now }, comps)

/-! ## Search scorer (server.ts lines 168-207) -/

/-- Model of the per-component scoring loop body of `search_components`:
sequentially accumulate the weighted field matches and the matched field
names; the tag loop breaks after the first matching tag; the exact-name
bonus adds 30 without recording a field. -/
def scoreOf (c : Component) (query : String) : Nat × List String :=
  let acc1 : Nat × List String :=
    if strContainsStr (strToLower c.name) query then (50, ["name"]) else (0, [])
  let acc2 : Nat × List String :=
    if strContainsStr (strToLower c.category) query then
      (acc1.1 + 30, acc1.2 ++ ["category"]) else acc1
  let acc3 : Nat × List String :=
    if c.tags.any (fun t => strContainsStr (strToLower t) query) then
      (acc2.1 + 20, acc2.2 ++ ["tags"]) else acc2
  let acc4 : Nat × List String :=
    if strContainsStr (strToLower c.description) query then
      (acc3.1 + 10, acc3.2 ++ ["description"]) else acc3
  if strToLower c.name = query then (acc4.1 + 30, acc4.2) else acc4

/-- Builds the `SearchResult` entry pushed for a component. -/
def mkResult (query : String) (c : Component) : SearchResult :=
  { component := c, score := (scoreOf c query).1, matchedFields := (scoreOf c query).2 }

/-- The candidate list of `search_components`: components are visited in
crawl order and only those with a positive score are pushed. -/
def searchCandidates (components : List Component) (query : String) : List SearchResult :=
  components.filterMap (fun c =>
    if 0 < (scoreOf c query).1 then some (mkResult query c) else none)

/-- Stable insertion of a result into a score-descending list: the new
element (earlier in the original order) is placed before the first
element whose score does not exceed it.  This realises the ECMAScript
requirement that `Array.prototype.sort` be stable. -/
def insertD (r : SearchResult) : List SearchResult → List SearchResult
  | [] => [r]
  | x :: xs => if x.score ≤ r.score then r :: x :: xs else x :: insertD r xs

/-- Stable sort by score descending, modelling
`results.sort((a, b) => b.score - a.score)` of server.ts. -/
def sortD : List SearchResult → List SearchResult
  | [] => []
  | x :: xs => insertD x (sortD xs)

/-- Model of the `search_components` tool (server.ts lines 150-221):
normalise the query, reject an empty query (`none`), score every cached
component, keep the positive scores, sort stably by score descending and
truncate to the limit (default 10). -/
def searchComponents (components : List Component) (rawQuery : String)
    (limit? : Option Nat) : Option (List SearchResult) :=
  let query := strTrim (strToLower rawQuery)
  let limit := limit?.getD 10
  if query == "" then none
  else some ((sortD (searchCandidates components query)).take limit)

/-! ## The list tool (server.ts lines 105-137)

JavaScript truthiness on the optional parameters: an empty category
string and a zero limit are falsy, so both leave the list untouched. -/

/-- Model of the `list_components` tool: optional category filter
(case-insensitive equality), optional truncation, summary projection.
Returns the reported total together with the summaries. -/
def list_components (components : List Component) (category? : Option String)
    (limit? : Option Nat) : Nat × List ComponentSummary :=
  let filtered := match category? with
    | some cat =>
        if cat == "" then components
        else components.filter (fun c => strToLower c.category == strToLower cat)
    | none => components
  let filtered2 := match limit? with
    | some l => if l == 0 then filtered else filtered.take l
    | none => filtered
  (filtered2.length, filtered2.map formatComponentSummary)

/-! ## Category extraction (componentLoader.ts, `extractCategory`)

The object literal `categoryMap` iterates its entries in insertion order
(`Object.entries` preserves the order of string keys), so it is embedded
as an ordered association list. -/

/-- The `categoryMap` of `extractCategory`, in the source's insertion
order.  Note that `tabs` appears only after `table` and `list`, and
`slider` only after `carousel`. -/
def categoryMap : List (String × String) :=
  [("button", "Buttons"), ("btn", "Buttons"), ("card", "Cards"),
   ("input", "Forms"), ("form", "Forms"), ("select", "Forms"),
   ("checkbox", "Forms"), ("radio", "Forms"), ("toggle", "Forms"),
   ("switch", "Forms"), ("nav", "Navigation"), ("header", "Navigation"),
   ("footer", "Navigation"), ("sidebar", "Navigation"), ("menu", "Navigation"),
   ("modal", "Overlays"), ("dialog", "Overlays"), ("popover", "Overlays"),
   ("tooltip", "Overlays"), ("dropdown", "Overlays"), ("sheet", "Overlays"),
   ("drawer", "Overlays"), ("badge", "Data Display"), ("avatar", "Data Display"),
   ("list", "Data Display"), ("table", "Data Display"), ("tabs", "Navigation"),
   ("accordion", "Data Display"), ("carousel", "Data Display"),
   ("slider", "Forms"), ("progress", "Feedback"), ("spinner", "Feedback"),
   ("loader", "Feedback"), ("skeleton", "Feedback"), ("alert", "Feedback"),
   ("toast", "Feedback"), ("notification", "Feedback"), ("layout", "Layout"),
   ("container", "Layout"), ("grid", "Layout"), ("flex", "Layout"),
   ("section", "Layout"), ("divider", "Layout"), ("separator", "Layout"),
   ("space", "Layout"), ("typography", "Typography"), ("text", "Typography"),
   ("heading", "Typography"), ("title", "Typography"), ("label", "Typography"),
   ("icon", "Icons"), ("image", "Media"), ("video", "Media"),
   ("animation", "Animation"), ("transition", "Animation"),
   ("effect", "Animation"), ("gradient", "Styles"), ("theme", "Styles"),
   ("chart", "Data Visualization"), ("graph", "Data Visualization")]

/-- First keyword whose substring test against the lower-cased name
succeeds, in table order (the `for ... of Object.entries` loop). -/
def lookupFirst (nameLower : String) : List (String × String) → Option String
  | [] => none
  | (k, cat) :: rest =>
      if strContainsStr nameLower k then some cat else lookupFirst nameLower rest

/-- Model of `extractCategory` (componentLoader.ts): first keyword match
against the lower-cased name wins; otherwise the raw content is probed
for capitalised structural markers in a fixed order; otherwise the
literal default. -/
def extractCategory (componentName code : String) : String :=
  let nameLower := strToLower componentName
  match lookupFirst nameLower categoryMap with
  | some cat => cat
  | none =>
      if strContainsStr code "Button" || strContainsStr code "btn" then "Buttons"
      else if strContainsStr code "Card" then "Cards"
      else if strContainsStr code "Input" || strContainsStr code "Form" then "Forms"
      else if strContainsStr code "Modal" || strContainsStr code "Dialog" then "Overlays"
      else if strContainsStr code "Nav" then "Navigation"
      else "Components"

/-- Modelled from the spec: the keyword table exactly as section 4.2
lists it, grouping by target category, so `slider` sits with the other
Forms keywords (right after `switch`) and `tabs` with the Navigation
keywords (right after `menu`). -/
def specCategoryTable : List (String × String) :=
  [("button", "Buttons"), ("btn", "Buttons"), ("card", "Cards"),
   ("input", "Forms"), ("form", "Forms"), ("select", "Forms"),
   ("checkbox", "Forms"), ("radio", "Forms"), ("toggle", "Forms"),
   ("switch", "Forms"), ("slider", "Forms"), ("nav", "Navigation"),
   ("header", "Navigation"), ("footer", "Navigation"),
   ("sidebar", "Navigation"), ("menu", "Navigation"), ("tabs", "Navigation"),
   ("modal", "Overlays"), ("dialog", "Overlays"), ("popover", "Overlays"),
   ("tooltip", "Overlays"), ("dropdown", "Overlays"), ("sheet", "Overlays"),
   ("drawer", "Overlays"), ("badge", "Data Display"), ("avatar", "Data Display"),
   ("list", "Data Display"), ("table", "Data Display"),
   ("accordion", "Data Display"), ("carousel", "Data Display"),
   ("progress", "Feedback"), ("spinner", "Feedback"), ("loader", "Feedback"),
   ("skeleton", "Feedback"), ("alert", "Feedback"), ("toast", "Feedback"),
   ("notification", "Feedback"), ("layout", "Layout"), ("container", "Layout"),
   ("grid", "Layout"), ("flex", "Layout"), ("section", "Layout"),
   ("divider", "Layout"), ("separator", "Layout"), ("space", "Layout"),
   ("typography", "Typography"), ("text", "Typography"),
   ("heading", "Typography"), ("title", "Typography"), ("label", "Typography"),
   ("icon", "Icons"), ("image", "Media"), ("video", "Media"),
   ("animation", "Animation"), ("transition", "Animation"),
   ("effect", "Animation"), ("gradient", "Styles"), ("theme", "Styles"),
   ("chart", "Data Visualization"), ("graph", "Data Visualization")]

/-- Modelled from the spec: first substring match against the lower-cased
name over the spec's ordered table, then the content-marker fallback in
the priority order button-like, card-like, input/form-like,
modal/dialog-like, navigation-like, then the literal default
`Components`. -/
def specExtractCategory (componentName code : String) : String :=
  let nameLower := strToLower componentName
  match lookupFirst nameLower specCategoryTable with
  | some cat => cat
  | none =>
      if strContainsStr code "Button" || strContainsStr code "btn" then "Buttons"
      else if strContainsStr code "Card" then "Cards"
      else if strContainsStr code "Input" || strContainsStr code "Form" then "Forms"
      else if strContainsStr code "Modal" || strContainsStr code "Dialog" then "Overlays"
      else if strContainsStr code "Nav" then "Navigation"
      else "Components"

/-- The spec's reference definition amended only in what the
counterexample forces: the same table as the source (`tabs` scanned after
`table` and `list`, `slider` after `carousel`), same fallback, same
default. -/
def specExtractCategoryAmended (componentName code : String) : String :=
  let nameLower := strToLower componentName
  match lookupFirst nameLower categoryMap with
  | some cat => cat
  | none =>
      if strContainsStr code "Button" || strContainsStr code "btn" then "Buttons"
      else if strContainsStr code "Card" then "Cards"
      else if strContainsStr code "Input" || strContainsStr code "Form" then "Forms"
      else if strContainsStr code "Modal" || strContainsStr code "Dialog" then "Overlays"
      else if strContainsStr code "Nav" then "Navigation"
      else "Components"

/-! ## Tag extraction (componentLoader.ts, `extractTags`)

The source inserts into a `Set` and returns `Array.from(tags)`; a
JavaScript `Set` iterates in insertion order and every insertion site
uses a distinct tag, so the result is the concatenation of the
conditional singletons in source order. -/

/-- Model of `extractTags`: each content predicate contributes its tag in
the fixed evaluation order of the source. -/
def extractTags (code : String) : List String :=
  (if strContainsStr code "@keyframes" || strContainsStr code "animation"
    then ["animation"] else []) ++
  (if strContainsStr code "transition" || strContainsStr code "transform"
    then ["animated"] else []) ++
  (if strContainsStr code "onClick" || strContainsStr code "onChange" ||
      strContainsStr code "onHover" then ["interactive"] else []) ++
  (if strContainsStr code "gradient" then ["gradient"] else []) ++
  (if strContainsStr code "Tailwind" || strContainsStr code "className"
    then ["tailwind"] else []) ++
  (if strContainsStr code "styled" then ["styled-components"] else []) ++
  (if strContainsStr code "flex" || strContainsStr code "grid"
    then ["layout"] else []) ++
  (if strContainsStr code "responsive" || strContainsStr code "md:" ||
      strContainsStr code "lg:" then ["responsive"] else []) ++
  (if strContainsStr code "useRef" || strContainsStr code "useEffect" ||
      strContainsStr code "useState" then ["hooks"] else []) ++
  (if strContainsStr code "forwardRef" then ["composable"] else []) ++
  (if strContainsStr code "children" then ["compound"] else [])

/-- The fixed order in which `extractTags` can emit tags. -/
def tagOrder : List String :=
  ["animation", "animated", "interactive", "gradient", "tailwind",
   "styled-components", "layout", "responsive", "hooks", "composable",
   "compound"]

/-! ## Dependency extraction (componentLoader.ts, `extractDependencies`)

The two regular expressions
`import\s+.*?\s+from\s+Q(@?W+)Q` and `require\(Q(@?W+)Q\)` (where `Q`
is the class of a single or a double quote and `W` the class of word
characters, slashes and dashes) are modelled by specialised backtracking
matchers over character lists, with `matchAll` semantics: scan left to
right, and after a match resume right after it. -/

/-- The regex word class `\w`. -/
def isWordChar (c : Char) : Bool :=
  (c ≥ 'a' && c ≤ 'z') || (c ≥ 'A' && c ≤ 'Z') || (c ≥ '0' && c ≤ '9') || c == '_'

/-- The specifier class `W`: a word character, a slash or a dash. -/
def isSpecChar (c : Char) : Bool :=
  isWordChar c || c == '/' || c == '-'

/-- The quote class: a single or a double quote (39 is the single-quote
code point). -/
def isQuoteChar (c : Char) : Bool :=
  c == '"' || c == Char.ofNat 39

/-- The character class of the regex dot with the default flags: any
character except a line terminator. -/
def isDotChar (c : Char) : Bool :=
  !(c == '\n' || c == '\r')

/-- Matches the capture group `@?W+`: an optional `@` followed by a
non-empty greedy run of specifier characters.  Returns the capture and
the rest of the input. -/
def matchSpec (cs : List Char) : Option (List Char × List Char) :=
  match cs with
  | '@' :: rest =>
      let (body, rest2) := rest.span isSpecChar
      if body.isEmpty then none else some ('@' :: body, rest2)
  | _ =>
      let (body, rest2) := cs.span isSpecChar
      if body.isEmpty then none else some (body, rest2)

/-- Matches `Q(@?W+)Q`; the two quotes are independent
occurrences of the class, exactly as in the source regex. -/
def matchQuotedSpec (cs : List Char) : Option (List Char × List Char) :=
  match cs with
  | q :: rest =>
      if isQuoteChar q then
        match matchSpec rest with
        | some (spec, rest2) =>
            match rest2 with
            | q2 :: rest3 => if isQuoteChar q2 then some (spec, rest3) else none
            | [] => none
        | none => none
      else none
  | [] => none

/-- Matches `\s+from\s+Q(@?W+)Q` at the current
position.  A greedy `\s+` followed by a literal can only succeed with the
maximal whitespace run, so no backtracking is needed here. -/
def matchFromPart (cs : List Char) : Option (List Char × List Char) :=
  let (ws, rest) := cs.span isWsChar
  if ws.isEmpty then none
  else match rest with
    | 'f' :: 'r' :: 'o' :: 'm' :: rest2 =>
        let (ws2, rest3) := rest2.span isWsChar
        if ws2.isEmpty then none else matchQuotedSpec rest3
    | _ => none

/-- The lazy `.*?` before `\s+from...`: try the continuation at the
current position first, then consume one dot-class character; a line
terminator (not matched by the dot) ends the attempt. -/
def scanLazy : List Char → Option (List Char × List Char)
  | [] => none
  | c :: rest =>
      match matchFromPart (c :: rest) with
      | some r => some r
      | none => if isDotChar c then scanLazy rest else none

/-- Backtracking over the greedy `\s+` after `import`: first give all the
whitespace to `\s+` and none to `.*?`, then move trailing whitespace
characters into the dot region one at a time, always keeping at least one
character for `\s+`.  `wsRev` is the reversed unassigned whitespace and
`tail` the input already handed to the lazy scan. -/
def importWsSplits (rest : List Char) : List Char → List Char →
    Option (List Char × List Char)
  | wsRev, tail =>
      match scanLazy (tail ++ rest) with
      | some r => some r
      | none =>
          match wsRev with
          | [] => none
          | [_] => none
          | c :: wsRev2 => importWsSplits rest wsRev2 (c :: tail)

/-- Matches the whole import regex at the current position: the literal
`import`, at least one whitespace character, the lazy gap and the
`from`-part.  Returns the capture and the input right after the match. -/
def matchImportAt (cs : List Char) : Option (List Char × List Char) :=
  match cs with
  | 'i' :: 'm' :: 'p' :: 'o' :: 'r' :: 't' :: rest =>
      let (ws, rest2) := rest.span isWsChar
      if ws.isEmpty then none else importWsSplits rest2 ws.reverse []
  | _ => none

/-- Matches the require regex at the current position. -/
def matchRequireAt (cs : List Char) : Option (List Char × List Char) :=
  match cs with
  | 'r' :: 'e' :: 'q' :: 'u' :: 'i' :: 'r' :: 'e' :: '(' :: rest =>
      match matchQuotedSpec rest with
      | some (spec, rest2) =>
          match rest2 with
          | ')' :: rest3 => some (spec, rest3)
          | _ => none
      | none => none
  | _ => none

/-- `matchAll` driver: collect the captures of every non-overlapping
match from left to right.  Every match consumes at least one character,
so fuel equal to the input length never runs out. -/
def matchAllGo (matchAt : List Char → Option (List Char × List Char)) :
    Nat → List Char → List (List Char)
  | 0, _ => []
  | _ + 1, [] => []
  | fuel + 1, c :: rest =>
      match matchAt (c :: rest) with
      | some (cap, after) => cap :: matchAllGo matchAt fuel after
      | none => matchAllGo matchAt fuel rest

/-- All captures of the import regex over the content, in match order. -/
def importSpecifiers (cs : List Char) : List (List Char) :=
  matchAllGo matchImportAt cs.length cs

/-- All captures of the require regex over the content, in match order. -/
def requireSpecifiers (cs : List Char) : List (List Char) :=
  matchAllGo matchRequireAt cs.length cs

/-- A `Set.add` step: append the element if it is not already present
(JavaScript `Set` keeps insertion order and ignores duplicates). -/
def addUnique (acc : List String) (d : String) : List String :=
  if d ∈ acc then acc else acc ++ [d]

/-- The dependency filter of `extractDependencies`: keep a specifier
unless it is relative (starts with a dot) or a Node builtin (starts with
`node:`). -/
def depAllowed (d : String) : Bool :=
  !(strStarts d ".") && !(strStarts d "node:")

/-- The filter-then-add step of `extractDependencies`: skip relative
specifiers and Node builtins, insert the rest into the set. -/
def depStep (acc : List String) (d : String) : List String :=
  if depAllowed d then addUnique acc d else acc

/-- Model of `extractDependencies`: import captures first, then require
captures, each filtered and deduplicated into an insertion-ordered set. -/
def extractDependencies (code : String) : List String :=
  let importDeps := (importSpecifiers code.toList).map String.mk
  let requireDeps := (requireSpecifiers code.toList).map String.mk
  requireDeps.foldl depStep (importDeps.foldl depStep [])

/-- Concrete content importing an external and a relative module (the
spec's section 8 example). -/
def reactLocalContent : String :=
  "import React from \"react\"\nimport util from \"./local-util\"\nexport {}\n"

/-- The same two imports in the opposite order. -/
def localReactContent : String :=
  "import util from \"./local-util\"\nimport React from \"react\"\nexport {}\n"

/-- The external import repeated twice. -/
def doubleReactContent : String :=
  "import React from \"react\"\nimport * as R from \"react\"\nexport {}\n"

/-! ## Description extraction (componentLoader.ts, `extractDescription`)

Three regexes are modelled: the doc-block finder
`\/\*\*\s*\n([^*]|\*[^\/])*\*\/`, the in-block line matcher
`\*\s*([^@\n]+)` and the line-comment matcher `\/\/\s*(.+)`, all with
first-match (leftmost) semantics. -/

/-- The comment-body element loop `([^*]|\*[^\x2f])*\*\x2f`: consume
characters until the closing `*` `\x2f` pair, where a `*` not followed by
a slash is consumed together with its successor.  The element choices are
forced, so the committed scan coincides with the backtracking regex.
Returns the consumed characters (closing pair included) and the rest. -/
def jsdocBody : List Char → Option (List Char × List Char)
  | '*' :: '/' :: rest => some (['*', '/'], rest)
  | '*' :: c :: rest =>
      match jsdocBody rest with
      | some (consumed, r) => some ('*' :: c :: consumed, r)
      | none => none
  | '*' :: [] => none
  | c :: rest =>
      match jsdocBody rest with
      | some (consumed, r) => some (c :: consumed, r)
      | none => none
  | [] => none

/-- Splits a whitespace run at its last newline: the greedy `\s*` keeps
everything before that newline, the literal `\n` consumes it, and the
remaining whitespace is left to the comment body.  Fails when the run
contains no newline. -/
def splitAtLastNl (ws : List Char) : Option (List Char × List Char) :=
  match ws.reverse.span (fun c => !(c == '\n')) with
  | (_, []) => none
  | (tailRev, _ :: beforeRev) =>
      some (beforeRev.reverse ++ ['\n'], tailRev.reverse)

/-- Matches the doc-block regex at the current position: the literal
opener, greedy whitespace ending in a newline, then the body up to the
closing pair.  Returns the full matched block and the rest. -/
def matchJsdocAt (cs : List Char) : Option (List Char × List Char) :=
  match cs with
  | '/' :: '*' :: '*' :: rest =>
      let (ws, rest2) := rest.span isWsChar
      match splitAtLastNl ws with
      | some (wsHead, wsTail) =>
          match jsdocBody (wsTail ++ rest2) with
          | some (consumed, r) =>
              some ('/' :: '*' :: '*' :: (wsHead ++ consumed), r)
          | none => none
      | none => none
  | _ => none

/-- Leftmost match of the doc-block regex over the whole content,
returning the matched block (`match[0]` in the source). -/
def findJsdoc : List Char → Option (List Char)
  | [] => none
  | c :: rest =>
      match matchJsdocAt (c :: rest) with
      | some (m, _) => some m
      | none => findJsdoc rest

/-- The capture class `[^@\n]`: anything but an at-sign or a newline. -/
def isInnerChar (c : Char) : Bool :=
  !(c == '@' || c == '\n')

/-- Backtracking over the greedy `\s*` before the capture `([^@\n]+)`:
try the longest whitespace prefix first; when the following character
cannot start the capture, hand trailing whitespace characters back to the
capture one at a time.  `tail` is the candidate capture start. -/
def innerCapSplits : List Char → List Char → Option (List Char)
  | wsRev, tail =>
      match tail with
      | c :: _ =>
          if isInnerChar c then some (tail.takeWhile isInnerChar)
          else match wsRev with
            | [] => none
            | w :: wsRev2 => innerCapSplits wsRev2 (w :: tail)
      | [] =>
          match wsRev with
          | [] => none
          | w :: wsRev2 => innerCapSplits wsRev2 (w :: tail)

/-- Matches `\s*([^@\n]+)` right after a `*`, returning the capture. -/
def innerCapAfter (rest : List Char) : Option (List Char) :=
  let (ws, r) := rest.span isWsChar
  innerCapSplits ws.reverse r

/-- Leftmost match of `\*\s*([^@\n]+)` over the comment block, returning
the capture (`descriptionMatch[1]` in the source). -/
def starCapture : List Char → Option (List Char)
  | [] => none
  | '*' :: rest =>
      match innerCapAfter rest with
      | some cap => some cap
      | none => starCapture rest
  | _ :: rest => starCapture rest

/-- Backtracking over the greedy `\s*` before the dot capture `(.+)` of
the line-comment regex. -/
def dotCapSplits : List Char → List Char → Option (List Char)
  | wsRev, tail =>
      match tail with
      | c :: _ =>
          if isDotChar c then some (tail.takeWhile isDotChar)
          else match wsRev with
            | [] => none
            | w :: wsRev2 => dotCapSplits wsRev2 (w :: tail)
      | [] =>
          match wsRev with
          | [] => none
          | w :: wsRev2 => dotCapSplits wsRev2 (w :: tail)

/-- Matches `\s*(.+)` right after a `\x2f\x2f`, returning the capture. -/
def dotCapAfter (rest : List Char) : Option (List Char) :=
  let (ws, r) := rest.span isWsChar
  dotCapSplits ws.reverse r

/-- Leftmost match of the line-comment regex `\/\/\s*(.+)` over the
content, returning the capture. -/
def findLineComment : List Char → Option (List Char)
  | [] => none
  | c :: rest =>
      match
        (if c == '/' then
          match rest with
          | '/' :: rest2 => dotCapAfter rest2
          | _ => none
        else none) with
      | some cap => some cap
      | none => findLineComment rest

/-- Model of `extractDescription`: the first doc-block's inner capture,
trimmed, when both regexes match; otherwise the first line comment's
capture, trimmed; otherwise the synthesised fallback text. -/
def extractDescription (code componentName : String) : String :=
  let jsdocDesc : Option (List Char) :=
    match findJsdoc code.toList with
    | some comment => starCapture comment
    | none => none
  match jsdocDesc with
  | some cap => strTrim (String.mk cap)
  | none =>
      match findLineComment code.toList with
      | some cap => strTrim (String.mk cap)
      | none => componentName ++ " component from VengeanceUI"

/-- Concrete content carrying a well-formed documentation block. -/
def jsdocContent : String :=
  "/**\n * Fancy animated button\n */\nexport const a = 1;\n"

/-! ## Concrete fixtures and auxiliary predicates used by the theorems -/

/-- Concrete record used by several witnesses: a component named exactly
`Button`. -/
def demoButton : Component :=
  { name := "Button", category := "Buttons", description := "A button",
    tags := ["interactive"], sourceUrl := "https://example.test/button" }

/-- A record that matches the query `button` only on its description. -/
def demoDescOnly : Component :=
  { name := "Tooltip", category := "Overlays",
    description := "a button helper overlay", tags := ["overlay"],
    sourceUrl := "https://example.test/tooltip" }

/-- A populated cache state refreshed at instant 0. -/
def staleState : CacheState :=
  { componentsCache := [demoButton], lastCacheUpdate := 0 }

/-- A fetch in which every remote directory listing fails. -/
def failFetch : String → Except String (List Component) :=
  fun _ => Except.error "network error"

/-- A fetch in which every remote directory listing succeeds. -/
def okFetch : String → Except String (List Component) :=
  fun _ => Except.ok [demoButton]

/-- Score-descending order, the postcondition of the comparator
`(a, b) => b.score - a.score`. -/
def sortedByScoreDesc (l : List SearchResult) : Prop :=
  l.Pairwise (fun a b => b.score ≤ a.score)

/-- Strict lexicographic order on character lists, by code point. -/
def charsLexLt : List Char → List Char → Bool
  | [], [] => false
  | [], _ :: _ => true
  | _ :: _, [] => false
  | a :: as, b :: bs =>
      if a < b then true else if b < a then false else charsLexLt as bs

/-- Lexicographically non-decreasing order on a string list (the
canonical sorted order the spec asks for). -/
def strSortedLE (l : List String) : Prop :=
  l.Pairwise (fun a b => charsLexLt b.toList a.toList = false)

/-- The dependency-set pipeline applied to an arbitrary specifier list:
filter then deduplicate in first-occurrence order. -/
def depSetOf (specs : List String) : List String :=
  specs.foldl depStep []

/-! ## General lemmas about the embedded operations -/

/-- A character list is a prefix of itself. -/
theorem charsPrefix_self : ∀ l : List Char, charsPrefix l l = true := by
  intro l
  induction l with
  | nil => rfl
  | cons c cs ih => simp [charsPrefix, ih]

/-- JavaScript `s.includes(s)` is true: exact equality implies
containment. -/
theorem strContainsStr_self (s : String) : strContainsStr s s = true := by
  unfold strContainsStr
  cases h : s.toList with
  | nil => rfl
  | cons c cs => simp [charsContain, charsPrefix_self]

/-- The accumulated score equals the sum of the five independent weighted
matches. -/
theorem scoreOf_fst (c : Component) (q : String) :
    (scoreOf c q).1 =
      (if strContainsStr (strToLower c.name) q then 50 else 0) +
      (if strContainsStr (strToLower c.category) q then 30 else 0) +
      (if c.tags.any (fun t => strContainsStr (strToLower t) q) then 20 else 0) +
      (if strContainsStr (strToLower c.description) q then 10 else 0) +
      (if strToLower c.name = q then 30 else 0) := by
  simp only [scoreOf]
  split_ifs <;> rfl

/-- The matched-field list is the concatenation of the four conditional
field names, in evaluation order. -/
theorem scoreOf_snd (c : Component) (q : String) :
    (scoreOf c q).2 =
      (((if strContainsStr (strToLower c.name) q then ["name"] else []) ++
        (if strContainsStr (strToLower c.category) q then ["category"] else [])) ++
        (if c.tags.any (fun t => strContainsStr (strToLower t) q) then ["tags"] else [])) ++
        (if strContainsStr (strToLower c.description) q then ["description"] else []) := by
  simp only [scoreOf]
  split_ifs <;> rfl

/-- `insertD` inserts its element somewhere: the result is a permutation
of consing it. -/
theorem insertD_perm (r : SearchResult) (l : List SearchResult) :
    (insertD r l).Perm (r :: l) := by
  induction l with
  | nil => simp [insertD]
  | cons x xs ih =>
      simp only [insertD]
      split_ifs with h
      · exact List.Perm.refl _
      · exact ((ih.cons x).trans (List.Perm.swap r x xs))

/-- The stable sort permutes its input. -/
theorem sortD_perm (l : List SearchResult) : (sortD l).Perm l := by
  induction l with
  | nil => exact List.Perm.refl _
  | cons x xs ih => exact (insertD_perm x (sortD xs)).trans (ih.cons x)

/-- `insertD` preserves score-descending order. -/
theorem insertD_sorted (r : SearchResult) (l : List SearchResult)
    (h : sortedByScoreDesc l) : sortedByScoreDesc (insertD r l) := by
  induction l with
  | nil => simp [insertD, sortedByScoreDesc]
  | cons x xs ih =>
      rw [sortedByScoreDesc, List.pairwise_cons] at h
      obtain ⟨hx, hxs⟩ := h
      simp only [insertD]
      split_ifs with hle
      · rw [sortedByScoreDesc, List.pairwise_cons]
        refine ⟨?_, ?_⟩
        · intro b hb
          rcases List.mem_cons.mp hb with hbx | hbxs
          · exact hbx ▸ hle
          · exact le_trans (hx b hbxs) hle
        · rw [sortedByScoreDesc] at *
          exact List.Pairwise.cons hx hxs
      · rw [sortedByScoreDesc, List.pairwise_cons]
        refine ⟨?_, ih hxs⟩
        intro b hb
        have hb' : b ∈ r :: xs := (insertD_perm r xs).mem_iff.mp hb
        rcases List.mem_cons.mp hb' with hbr | hbxs
        · exact hbr ▸ le_of_lt (Nat.lt_of_not_le hle)
        · exact hx b hbxs

/-- The stable sort produces score-descending output. -/
theorem sortD_sorted (l : List SearchResult) : sortedByScoreDesc (sortD l) := by
  induction l with
  | nil => simp [sortD, sortedByScoreDesc]
  | cons x xs ih => exact insertD_sorted x (sortD xs) ih

/-- Stability of the insertion, phrased per score class: filtering one
score out of the inserted list either conses the new element (its own
class) or leaves the class untouched, because every element the insertion
skips has a strictly larger score. -/
theorem insertD_filter (r : SearchResult) (l : List SearchResult) (s : Nat) :
    (insertD r l).filter (fun x => x.score == s) =
      if r.score = s then r :: l.filter (fun x => x.score == s)
      else l.filter (fun x => x.score == s) := by
  induction l with
  | nil =>
      by_cases hr : r.score = s <;> simp [insertD, List.filter_cons, beq_iff_eq, hr]
  | cons x xs ih =>
      simp only [insertD]
      by_cases hle : x.score ≤ r.score
      · rw [if_pos hle]
        by_cases hr : r.score = s <;>
          simp [List.filter_cons, beq_iff_eq, hr]
      · rw [if_neg hle]
        by_cases hr : r.score = s
        · have hxne : ¬ x.score = s := by
            have := Nat.lt_of_not_le hle
            omega
          simp [List.filter_cons, beq_iff_eq, hxne, ih, hr]
        · simp [List.filter_cons, beq_iff_eq, ih, hr]

/-- Stability of the sort: each score class of the output is the
corresponding score class of the input, in the input's order. -/
theorem sortD_filter (l : List SearchResult) (s : Nat) :
    (sortD l).filter (fun x => x.score == s) =
      l.filter (fun x => x.score == s) := by
  induction l with
  | nil => rfl
  | cons x xs ih =>
      simp only [sortD]
      rw [insertD_filter]
      by_cases hx : x.score = s <;>
        simp [List.filter_cons, beq_iff_eq, hx, ih]

/-- The candidate list is the mapped record list filtered to positive
scores, in crawl order. -/
theorem searchCandidates_eq (comps : List Component) (q : String) :
    searchCandidates comps q =
      (comps.map (mkResult q)).filter (fun r => decide (0 < r.score)) := by
  induction comps with
  | nil => rfl
  | cons c cs ih =>
      simp only [searchCandidates, List.filterMap_cons, List.map_cons, List.filter]
      by_cases h : 0 < (scoreOf c q).1
      · have hs : decide (0 < (mkResult q c).score) = true := by
          simp [mkResult, h]
        rw [if_pos h, hs]
        simpa [searchCandidates] using congrArg (List.cons (mkResult q c)) ih
      · have hs : decide (0 < (mkResult q c).score) = false := by
          simp [mkResult, h]
        rw [if_neg h, hs]
        simpa [searchCandidates] using ih

/-- Every candidate has a positive score. -/
theorem searchCandidates_pos (comps : List Component) (q : String) :
    ∀ r ∈ searchCandidates comps q, 0 < r.score := by
  intro r hr
  rw [searchCandidates_eq] at hr
  have := List.of_mem_filter hr
  simpa using this

/-- Exact equality of the lower-cased name with the query forces the
containment test to succeed. -/
theorem contains_of_eq {s q : String} (h : strToLower s = q) :
    strContainsStr (strToLower s) q = true := by
  rw [h]
  exact strContainsStr_self q

/-- A record whose lower-cased name is exactly `button` accrues at least
the name-contains and the exact-match weights against the query
`button`. -/
theorem score_button_ge (c : Component) (h : strToLower c.name = "button") :
    80 ≤ (scoreOf c "button").1 := by
  rw [scoreOf_fst, h]
  simp [strContainsStr_self]
  split_ifs <;> omega

/-- A record whose only matched field is the description scores exactly
the description weight. -/
theorem score_desc_only (c : Component)
    (h : (scoreOf c "button").2 = ["description"]) :
    (scoreOf c "button").1 = 10 := by
  rw [scoreOf_snd] at h
  by_cases hA : strContainsStr (strToLower c.name) "button" = true
  · simp [hA] at h
  · have hA0 : strContainsStr (strToLower c.name) "button" = false := by
      simpa using hA
    by_cases hB : strContainsStr (strToLower c.category) "button" = true
    · simp [hA0, hB] at h
    · have hB0 : strContainsStr (strToLower c.category) "button" = false := by
        simpa using hB
      by_cases hC : c.tags.any (fun t => strContainsStr (strToLower t) "button") = true
      · simp [hA0, hB0, hC] at h
      · have hC0 : c.tags.any (fun t => strContainsStr (strToLower t) "button") = false := by
          simpa using hC
        by_cases hD : strContainsStr (strToLower c.description) "button" = true
        · have hex : ¬ (strToLower c.name = "button") := by
            intro he
            rw [contains_of_eq he] at hA0
            cases hA0
          rw [scoreOf_fst]
          simp [hA0, hB0, hC0, hD, hex]
        · have hD0 : strContainsStr (strToLower c.description) "button" = false := by
            simpa using hD
          simp [hA0, hB0, hC0, hD0] at h

/-- The score is positive exactly when some field matched. -/
theorem score_pos_iff (c : Component) (q : String) :
    0 < (scoreOf c q).1 ↔ (scoreOf c q).2 ≠ [] := by
  rw [scoreOf_fst, scoreOf_snd]
  by_cases hA : strContainsStr (strToLower c.name) q = true
  · simp [hA]
  · have hA0 : strContainsStr (strToLower c.name) q = false := by simpa using hA
    have hex : ¬ (strToLower c.name = q) := by
      intro he
      rw [contains_of_eq he] at hA0
      cases hA0
    by_cases hB : strContainsStr (strToLower c.category) q = true
    · simp [hA0, hB, hex]
    · have hB0 : strContainsStr (strToLower c.category) q = false := by simpa using hB
      by_cases hC : c.tags.any (fun t => strContainsStr (strToLower t) q) = true
      · simp [hA0, hB0, hC, hex]
      · have hC0 : c.tags.any (fun t => strContainsStr (strToLower t) q) = false := by
          simpa using hC
        by_cases hD : strContainsStr (strToLower c.description) q = true
        · simp [hA0, hB0, hC0, hD, hex]
        · have hD0 : strContainsStr (strToLower c.description) q = false := by
            simpa using hD
          simp [hA0, hB0, hC0, hD0, hex]

/-- Every recorded matched field is one of the four field names. -/
theorem score_fields (c : Component) (q : String) :
    ∀ f ∈ (scoreOf c q).2,
      f = "name" ∨ f = "category" ∨ f = "tags" ∨ f = "description" := by
  intro f hf
  rw [scoreOf_snd] at hf
  split_ifs at hf <;> simp at hf <;> tauto

/-- A conditional singleton is a sublist of the singleton. -/
theorem ifSingleSub (b : Bool) (a : String) :
    (if b then [a] else []).Sublist [a] := by
  cases b <;> simp

/-- The extracted tag list is a sublist of the fixed predicate-order
list. -/
theorem extractTags_sublist (code : String) :
    (extractTags code).Sublist tagOrder := by
  have h : tagOrder =
      (((((((((["animation"] ++ ["animated"]) ++ ["interactive"]) ++ ["gradient"]) ++ ["tailwind"]) ++ ["styled-components"]) ++ ["layout"]) ++ ["responsive"]) ++ ["hooks"]) ++ ["composable"]) ++ ["compound"] := rfl
  rw [h]
  unfold extractTags
  exact List.Sublist.append (List.Sublist.append (List.Sublist.append (List.Sublist.append (List.Sublist.append (List.Sublist.append (List.Sublist.append (List.Sublist.append (List.Sublist.append (List.Sublist.append (ifSingleSub _ _) (ifSingleSub _ _)) (ifSingleSub _ _)) (ifSingleSub _ _)) (ifSingleSub _ _)) (ifSingleSub _ _)) (ifSingleSub _ _)) (ifSingleSub _ _)) (ifSingleSub _ _)) (ifSingleSub _ _)) (ifSingleSub _ _)

/-- Adding to the insertion-ordered set preserves freedom from
duplicates. -/
theorem addUnique_nodup (acc : List String) (d : String) (h : acc.Nodup) :
    (addUnique acc d).Nodup := by
  unfold addUnique
  split_ifs with hd
  · exact h
  · rw [List.nodup_append]
    refine ⟨h, by simp, ?_⟩
    intro a ha hmem
    rw [List.mem_singleton] at hmem
    exact hd (hmem ▸ ha)

/-- One dependency step preserves freedom from duplicates. -/
theorem depStep_nodup (acc : List String) (d : String) (h : acc.Nodup) :
    (depStep acc d).Nodup := by
  unfold depStep
  split_ifs
  · exact addUnique_nodup acc d h
  · exact h

/-- Folding dependency steps preserves freedom from duplicates. -/
theorem foldl_depStep_nodup (l : List String) (acc : List String)
    (h : acc.Nodup) : (l.foldl depStep acc).Nodup := by
  induction l generalizing acc with
  | nil => simpa
  | cons x xs ih => exact ih _ (depStep_nodup acc x h)

/-- The extracted dependency list is duplicate-free. -/
theorem extractDependencies_nodup (code : String) :
    (extractDependencies code).Nodup := by
  unfold extractDependencies
  exact foldl_depStep_nodup _ _ (foldl_depStep_nodup _ _ List.nodup_nil)

/-- Membership after a set insertion. -/
theorem mem_addUnique (acc : List String) (x d : String) :
    d ∈ addUnique acc x ↔ d ∈ acc ∨ d = x := by
  unfold addUnique
  split_ifs with h
  · constructor
    · exact Or.inl
    · rintro (hd | rfl)
      · exact hd
      · exact h
  · simp [List.mem_append]

/-- Membership after one dependency step. -/
theorem mem_depStep (acc : List String) (x d : String) :
    d ∈ depStep acc x ↔ d ∈ acc ∨ (d = x ∧ depAllowed x = true) := by
  unfold depStep
  split_ifs with h
  · rw [mem_addUnique]
    constructor
    · rintro (hd | rfl)
      · exact Or.inl hd
      · exact Or.inr ⟨rfl, h⟩
    · rintro (hd | ⟨rfl, _⟩)
      · exact Or.inl hd
      · exact Or.inr rfl
  · simp [h]

/-- Membership in the folded dependency set: an element comes either from
the accumulator or from an allowed occurrence in the input. -/
theorem mem_foldl_depStep (l : List String) (acc : List String) (d : String) :
    d ∈ l.foldl depStep acc ↔
      d ∈ acc ∨ (d ∈ l ∧ depAllowed d = true) := by
  induction l generalizing acc with
  | nil => simp
  | cons x xs ih =>
      rw [List.foldl_cons, ih, mem_depStep]
      constructor
      · rintro ((hd | ⟨rfl, hp⟩) | ⟨hxs, hp⟩)
        · exact Or.inl hd
        · exact Or.inr ⟨List.mem_cons_self _ _, hp⟩
        · exact Or.inr ⟨List.mem_cons_of_mem _ hxs, hp⟩
      · rintro (hd | ⟨hmem, hp⟩)
        · exact Or.inl (Or.inl hd)
        · rcases List.mem_cons.mp hmem with rfl | hxs
          · exact Or.inl (Or.inr ⟨rfl, hp⟩)
          · exact Or.inr ⟨hxs, hp⟩

/-- Folding specifiers whose allowed elements are already present changes
nothing. -/
theorem foldl_depStep_noop (l : List String) (acc : List String)
    (h : ∀ d ∈ l, depAllowed d = true → d ∈ acc) :
    l.foldl depStep acc = acc := by
  induction l generalizing acc with
  | nil => rfl
  | cons x xs ih =>
      have hx : depStep acc x = acc := by
        unfold depStep
        split_ifs with hp
        · unfold addUnique
          rw [if_pos (h x (List.mem_cons_self _ _) hp)]
        · rfl
      rw [List.foldl_cons, hx]
      exact ih _ (fun d hd hp => h d (List.mem_cons_of_mem _ hd) hp)

/-- The dependency-set pipeline is idempotent on duplicated input. -/
theorem depSetOf_idem (l : List String) : depSetOf (l ++ l) = depSetOf l := by
  unfold depSetOf
  rw [List.foldl_append]
  exact foldl_depStep_noop l _
    (fun d hd hp => (mem_foldl_depStep l [] d).mpr (Or.inr ⟨hd, hp⟩))

/-- The dependency-set pipeline is order-independent as a set. -/
theorem depSetOf_perm_mem (l1 l2 : List String) (hp : l1.Perm l2) (d : String) :
    d ∈ depSetOf l1 ↔ d ∈ depSetOf l2 := by
  unfold depSetOf
  rw [mem_foldl_depStep, mem_foldl_depStep]
  simp [hp.mem_iff]

/-- Everything in the dependency set passes the relative and builtin
exclusion. -/
theorem depSetOf_excludes (l : List String) (d : String)
    (hd : d ∈ depSetOf l) :
    strStarts d "." = false ∧ strStarts d "node:" = false := by
  rcases (mem_foldl_depStep l [] d).mp hd with h | ⟨_, hp⟩
  · simp at h
  · unfold depAllowed at hp
    simp only [Bool.and_eq_true, Bool.not_eq_true'] at hp
    exact hp

/-- The dependency extractor is the dependency-set pipeline applied to
the import captures followed by the require captures. -/
theorem extractDependencies_eq (code : String) :
    extractDependencies code =
      depSetOf ((importSpecifiers code.toList).map String.mk ++
        (requireSpecifiers code.toList).map String.mk) := by
  unfold extractDependencies depSetOf
  rw [List.foldl_append]

/-! ## Claim theorems -/

/-- C1 (counterexample): when every directory fetch of a forced or
TTL-expired refresh fails, the previously cached snapshot does not remain
unchanged: the loader swallows the errors, returns an empty list, and the
cache is replaced by it, contradicting the claim at this concrete
input. -/
theorem claim_c1_cex :
    staleState.componentsCache = [demoButton] ∧
    loadComponents true 1 failFetch staleState =
      ({ componentsCache := [], lastCacheUpdate := 1 }, []) ∧
    loadComponents false 300000 failFetch staleState =
      ({ componentsCache := [], lastCacheUpdate := 300000 }, []) ∧
    ([] : List Component) ≠ [demoButton] := by
  refine ⟨rfl, rfl, rfl, ?_⟩
  decide

/-- C1 (amended): when every directory fetch fails, the recrawl does not
surface any failure; it produces the empty list, and the refresh replaces
the snapshot with that empty list and a fresh timestamp, so the previous
snapshot does not remain authoritative. -/
theorem claim_c1_amended :
    ∀ (st : CacheState) (now : Int)
      (fetchDir : String → Except String (List Component)),
      (∀ p, ∃ e, fetchDir p = Except.error e) →
      loadComponentsFromGitHub fetchDir = [] ∧
      loadComponents true now fetchDir st =
        ({ componentsCache := [], lastCacheUpdate := now }, []) := by
  intro st now fd h
  obtain ⟨e1, he1⟩ := h "registry/new-york"
  obtain ⟨e2, he2⟩ := h "src/components"
  obtain ⟨e3, he3⟩ := h ""
  have h0 : loadComponentsFromGitHub fd = [] := by
    simp [loadComponentsFromGitHub, he1, he2, he3]
  refine ⟨h0, ?_⟩
  simp [loadComponents, h0]

/-- C1 witness: the amended statement applied to the concrete failing
fetch and populated cache. -/
theorem claim_c1_amended_witness :
    loadComponentsFromGitHub failFetch = [] ∧
    loadComponents true 5 failFetch staleState =
      ({ componentsCache := [], lastCacheUpdate := 5 }, []) :=
  claim_c1_amended staleState 5 failFetch (fun _ => ⟨"network error", rfl⟩)

/-- C2 (counterexample): for the name `TabsList` the source's table order
(`list` scanned before `tabs`) and the spec's grouped order (`tabs`
before `list`) disagree, so category extraction does not equal the spec's
reference definition. -/
theorem claim_c2_cex :
    extractCategory "TabsList" "" = "Data Display" ∧
    specExtractCategory "TabsList" "" = "Navigation" ∧
    extractCategory "TabsList" "" ≠ specExtractCategory "TabsList" "" := by
  refine ⟨by decide, by decide, by decide⟩

/-- C2 (amended): category extraction equals the spec's reference
definition with the scan order corrected to the source's (`tabs` only
after `table` and `list`, `slider` only after `carousel`); in particular
every name containing `button` case-insensitively yields `Buttons`, and
the content fallback and default are as the spec states. -/
theorem claim_c2_amended :
    ∀ (name code : String),
      extractCategory name code = specExtractCategoryAmended name code ∧
      (strContainsStr (strToLower name) "button" = true →
        extractCategory name code = "Buttons") := by
  intro name code
  refine ⟨rfl, ?_⟩
  intro h
  simp [extractCategory, categoryMap, lookupFirst, h]

/-- C2 witness: the amended statement applied to a concrete
button-containing name, with its hypothesis discharged by evaluation. -/
theorem claim_c2_witness :
    extractCategory "GhostButton" "" = "Buttons" :=
  (claim_c2_amended "GhostButton" "").2 (by decide)

/-- C3: for every record and non-empty query the score is exactly the sum
of the five independent weighted field matches; a record named exactly
`Button` scores at least 80 against the query `button`; a record whose
only matched field is the description scores exactly 10 and is outranked
by it. -/
theorem claim_c3 :
    (∀ (c : Component) (q : String), q ≠ "" →
      (scoreOf c q).1 =
        (if strContainsStr (strToLower c.name) q then 50 else 0) +
        (if strContainsStr (strToLower c.category) q then 30 else 0) +
        (if c.tags.any (fun t => strContainsStr (strToLower t) q) then 20 else 0) +
        (if strContainsStr (strToLower c.description) q then 10 else 0) +
        (if strToLower c.name = q then 30 else 0)) ∧
    (∀ c : Component, strToLower c.name = "button" →
      80 ≤ (scoreOf c "button").1) ∧
    (∀ c : Component, (scoreOf c "button").2 = ["description"] →
      (scoreOf c "button").1 = 10) ∧
    (∀ c c2 : Component, strToLower c.name = "button" →
      (scoreOf c2 "button").2 = ["description"] →
      (scoreOf c2 "button").1 < (scoreOf c "button").1) := by
  refine ⟨fun c q _ => scoreOf_fst c q, score_button_ge, score_desc_only, ?_⟩
  intro c c2 hc hc2
  rw [score_desc_only c2 hc2]
  have := score_button_ge c hc
  omega

/-- C3 witness: the exact-name record outranks the description-only
record at the concrete inputs. -/
theorem claim_c3_witness :
    80 ≤ (scoreOf demoButton "button").1 ∧
    (scoreOf demoDescOnly "button").1 < (scoreOf demoButton "button").1 :=
  ⟨claim_c3.2.1 demoButton (by decide),
   claim_c3.2.2.2 demoButton demoDescOnly (by decide) (by decide)⟩

/-- C4: a non-forced read on a fresh, non-empty cache returns the state
and snapshot unchanged for every possible fetch function (so no remote
access can influence it and the timestamp is preserved), while a forced
read always recrawls and installs the recrawl result with the current
instant. -/
theorem claim_c4 :
    (∀ (st : CacheState) (now : Int)
        (fetchDir : String → Except String (List Component)),
      st.componentsCache ≠ [] →
      now - st.lastCacheUpdate < CACHE_DURATION →
      loadComponents false now fetchDir st = (st, st.componentsCache)) ∧
    (∀ (st : CacheState) (now : Int)
        (fetchDir : String → Except String (List Component)),
      loadComponents true now fetchDir st =
        ({ componentsCache := loadComponentsFromGitHub fetchDir,
           lastCacheUpdate := now }, loadComponentsFromGitHub fetchDir)) := by
  constructor
  · intro st now fd h1 h2
    have hne : st.componentsCache.isEmpty = false := by
      cases hc : st.componentsCache with
      | nil => exact absurd hc h1
      | cons a l => rfl
    simp [loadComponents, hne, h2]
  · intro st now fd
    rfl

/-- C4 witness: both parts applied to the concrete populated state, with
the freshness hypotheses discharged by evaluation. -/
theorem claim_c4_witness :
    loadComponents false 1000 okFetch staleState = (staleState, [demoButton]) ∧
    loadComponents true 600000 okFetch staleState =
      ({ componentsCache := loadComponentsFromGitHub okFetch,
         lastCacheUpdate := 600000 }, loadComponentsFromGitHub okFetch) :=
  ⟨claim_c4.1 staleState 1000 okFetch (by decide) (by decide),
   claim_c4.2 staleState 600000 okFetch⟩

/-- C6: for every record and non-empty query the score is positive
exactly when the matched-field list is non-empty, and every recorded
field is one of the four weighted field names. -/
theorem claim_c6 :
    ∀ (c : Component) (q : String), q ≠ "" →
      (0 < (scoreOf c q).1 ↔ (scoreOf c q).2 ≠ []) ∧
      (∀ f ∈ (scoreOf c q).2,
        f = "name" ∨ f = "category" ∨ f = "tags" ∨ f = "description") :=
  fun c q _ => ⟨score_pos_iff c q, score_fields c q⟩

/-- C6 witness: the equivalence applied to the concrete record and
query. -/
theorem claim_c6_witness :
    0 < (scoreOf demoButton "button").1 ↔ (scoreOf demoButton "button").2 ≠ [] :=
  (claim_c6 demoButton "button" (by decide)).1

/-- C5: for every record list, query and limit, the search output is the
stable score-descending sort of the positively scored candidates,
truncated to the limit (default 10): the emitted list is exactly that
truncation, the sorted list is score-descending, contains only positive
scores, permutes the candidate list, preserves each score class in crawl
order (stability), and the candidate list is the crawl-ordered record
list filtered to positive scores. -/
theorem claim_c5 (comps : List Component) (rawQuery : String)
    (limit? : Option Nat) (h : strTrim (strToLower rawQuery) ≠ "") :
    searchComponents comps rawQuery limit? =
      some ((sortD (searchCandidates comps (strTrim (strToLower rawQuery)))).take
        (limit?.getD 10)) ∧
    sortedByScoreDesc
      (sortD (searchCandidates comps (strTrim (strToLower rawQuery)))) ∧
    (∀ r ∈ sortD (searchCandidates comps (strTrim (strToLower rawQuery))),
      0 < r.score) ∧
    (sortD (searchCandidates comps (strTrim (strToLower rawQuery)))).Perm
      (searchCandidates comps (strTrim (strToLower rawQuery))) ∧
    (∀ s : Nat,
      (sortD (searchCandidates comps (strTrim (strToLower rawQuery)))).filter
          (fun r => r.score == s) =
        (searchCandidates comps (strTrim (strToLower rawQuery))).filter
          (fun r => r.score == s)) ∧
    searchCandidates comps (strTrim (strToLower rawQuery)) =
      (comps.map (mkResult (strTrim (strToLower rawQuery)))).filter
        (fun r => decide (0 < r.score)) := by
  refine ⟨?_, sortD_sorted _, ?_, sortD_perm _, fun s => sortD_filter _ s,
    searchCandidates_eq comps _⟩
  · simp [searchComponents, beq_iff_eq, h]
  · intro r hr
    exact searchCandidates_pos comps _ r ((sortD_perm _).subset hr)

/-- C5 witness: the output equation applied to a concrete catalogue and
query, with the non-empty-query hypothesis discharged by evaluation. -/
theorem claim_c5_witness :
    searchComponents [demoButton, demoDescOnly] "button" none =
      some ((sortD (searchCandidates [demoButton, demoDescOnly]
        (strTrim (strToLower "button")))).take ((none : Option Nat).getD 10)) :=
  (claim_c5 [demoButton, demoDescOnly] "button" none (by decide)).1

/-- C7 (counterexample): the tag list produced for content mentioning
`className` and `flex` is emitted in predicate order `tailwind, layout`,
which is not sorted, so the extracted tag list is not a sorted sequence
as externally observed. -/
theorem claim_c7_cex :
    extractTags "className flex" = ["tailwind", "layout"] ∧
    charsLexLt "layout".toList "tailwind".toList = true ∧
    ¬ strSortedLE (extractTags "className flex") := by
  refine ⟨by decide, by decide, ?_⟩
  intro hs
  rw [show extractTags "className flex" = ["tailwind", "layout"] from by decide,
    strSortedLE, List.pairwise_cons] at hs
  have h1 := hs.1 "layout" (by simp)
  rw [show charsLexLt "layout".toList "tailwind".toList = true from by decide] at h1
  simp at h1

/-- C7 (amended): the tag and dependency lists are deduplicated and
deterministic, but not sorted: the tag list is always a sublist of the
fixed predicate-order list (hence duplicate-free), and the dependency
list is duplicate-free in first-occurrence order. -/
theorem claim_c7_amended :
    ∀ code : String,
      (extractTags code).Sublist tagOrder ∧
      (extractTags code).Nodup ∧
      (extractDependencies code).Nodup := by
  intro code
  have hsub : (extractTags code).Sublist tagOrder :=
    extractTags_sublist code
  exact ⟨hsub, List.Nodup.sublist hsub (by decide), extractDependencies_nodup code⟩

/-- C8: dependency extraction behaves as a set: the spec's concrete
example (imports of `react` and of the relative `./local-util`, in either
order, or duplicated) yields exactly the singleton `react`; every
extracted specifier passes the relative and builtin exclusion; the
deduplicating pipeline is idempotent and order-independent as a set; and
the output is duplicate-free. -/
theorem claim_c8 :
    extractDependencies reactLocalContent = ["react"] ∧
    extractDependencies localReactContent = ["react"] ∧
    extractDependencies doubleReactContent = ["react"] ∧
    (∀ (code d : String), d ∈ extractDependencies code →
      strStarts d "." = false ∧ strStarts d "node:" = false) ∧
    (∀ specs : List String, depSetOf (specs ++ specs) = depSetOf specs) ∧
    (∀ l1 l2 : List String, l1.Perm l2 →
      ∀ d, d ∈ depSetOf l1 ↔ d ∈ depSetOf l2) ∧
    (∀ code : String, (extractDependencies code).Nodup) := by
  refine ⟨by decide, by decide, by decide, ?_, depSetOf_idem, depSetOf_perm_mem,
    extractDependencies_nodup⟩
  intro code d hd
  rw [extractDependencies_eq] at hd
  exact depSetOf_excludes _ d hd

/-- C8 witness: the exclusion part applied to the concrete content and
extracted specifier, with the membership hypothesis discharged by
evaluation. -/
theorem claim_c8_witness :
    strStarts "react" "." = false ∧ strStarts "react" "node:" = false :=
  claim_c8.2.2.2.1 reactLocalContent "react" (by decide)

/-- C9 (code bug): on content holding a well-formed documentation block
whose first text line is `Fancy animated button`, the extractor returns
the literal `*` (the second asterisk of the block opener matched by the
inner regex) instead of the first non-annotation text line the spec
describes. -/
theorem claim_c9_bug :
    extractDescription jsdocContent "FancyButton" = "*" ∧
    extractDescription jsdocContent "FancyButton" ≠ "Fancy animated button" := by
  refine ⟨by decide, by decide⟩

/-- C10: in the list operation a limit of 0 is treated as no limit: the
call with limit 0 coincides with the call without a limit, for every
record list and optional category filter. -/
theorem claim_c10 :
    ∀ (comps : List Component) (category? : Option String),
      list_components comps category? (some 0) =
        list_components comps category? none := by
  intro comps cat?
  cases cat? <;> rfl
